import Mathlib

/-!
Verification development for the BFVOS training harness
(`bfvos/train.py` and `bfvos/model/config.py`).

The numeric backend is embedded shallowly:

* a binary annotation mask (a 2-D integer grid) is a `List (List Nat)`;
* a dense embedding tensor of shape `(D, W', H')` is stored as its spatial
  grid of D-vectors: `List (List (List ℚ))`, where `emb[x][y]` is the
  D-vector `emb[:, x, y]` of the source;
* `torch.nonzero` on a 2-D tensor is a row-major scan collecting the
  indices where the entry satisfies a condition;
* `torch.cat` of a list of tensors fails on an empty list, and indexing
  fails out of range, so gathering returns an `Option`.
-/

/-- A binary annotation mask: a 2-D grid of naturals (0 = background,
nonzero = foreground). -/
abbrev Mask : Type := List (List Nat)

/-- An embedding tensor of shape `(D, W', H')`, stored as the spatial grid
of its D-vectors: `emb[x][y]` is the source's `emb[:, x, y]`. -/
abbrev Emb : Type := List (List (List ℚ))

/-- Row-major scan of one mask row starting at row index `i`, column index
`j`, collecting the coordinates whose entry satisfies `p`.  Building block
of the embedding of `torch.nonzero`. -/
def rowScan (p : Nat → Bool) (i j : Nat) : List Nat → List (Nat × Nat)
  | [] => []
  | v :: rest => (if p v then [(i, j)] else []) ++ rowScan p i (j + 1) rest

/-- Row-major scan of a whole mask starting at row index `i`: the embedding
of `torch.nonzero` applied to a 2-D tensor whose entries satisfy `p`. -/
def gridScan (p : Nat → Bool) (i : Nat) : List (List Nat) → List (Nat × Nat)
  | [] => []
  | row :: rest => rowScan p i 0 row ++ gridScan p (i + 1) rest

/-- `torch.nonzero(mask)` (train.py lines 90 and 96): the row-major list of
coordinates at which the mask is nonzero — the foreground coordinate set. -/
def nonzeroCoords (m : Mask) : List (Nat × Nat) :=
  gridScan (fun v => v != 0) 0 m

/-- `torch.nonzero(mask == 0)` (train.py lines 91 and 97): the row-major
list of coordinates at which the mask is zero — the background set. -/
def zeroCoords (m : Mask) : List (Nat × Nat) :=
  gridScan (fun v => v == 0) 0 m

/-- The full coordinate space of a mask, enumerated in the same row-major
order used by `torch.nonzero`. -/
def allCoords (m : Mask) : List (Nat × Nat) :=
  gridScan (fun _ => true) 0 m

lemma rowScan_congr (p q : Nat → Bool) (h : ∀ v, p v = q v) :
    ∀ (row : List Nat) (i j : Nat), rowScan p i j row = rowScan q i j row
  | [], _, _ => rfl
  | v :: rest, i, j => by
    simp only [rowScan, h v, rowScan_congr p q h rest i (j + 1)]

lemma gridScan_congr (p q : Nat → Bool) (h : ∀ v, p v = q v) :
    ∀ (m : List (List Nat)) (i : Nat), gridScan p i m = gridScan q i m
  | [], _ => rfl
  | row :: rest, i => by
    simp only [gridScan, rowScan_congr p q h row i 0, gridScan_congr p q h rest (i + 1)]

lemma rowScan_count (p : Nat → Bool) (c : Nat × Nat) :
    ∀ (row : List Nat) (i j : Nat),
      (rowScan p i j row).count c + (rowScan (fun v => !(p v)) i j row).count c
        = (rowScan (fun _ => true) i j row).count c
  | [], i, j => by simp [rowScan]
  | v :: rest, i, j => by
    have ih := rowScan_count p c rest i (j + 1)
    by_cases hc : c = (i, j)
    · subst hc
      cases hp : p v <;>
        simp [rowScan, hp, List.count_append, List.count_cons] <;> omega
    · cases hp : p v <;>
        simp [rowScan, hp, hc, List.count_append, List.count_cons] <;> omega

lemma gridScan_count (p : Nat → Bool) (c : Nat × Nat) :
    ∀ (m : List (List Nat)) (i : Nat),
      (gridScan p i m).count c + (gridScan (fun v => !(p v)) i m).count c
        = (gridScan (fun _ => true) i m).count c
  | [], i => by simp [gridScan]
  | row :: rest, i => by
    have h1 := rowScan_count p c row i 0
    have h2 := gridScan_count p c rest (i + 1)
    simp only [gridScan, List.count_append]
    omega

lemma mem_rowScan {p : Nat → Bool} :
    ∀ {row : List Nat} {i j : Nat} {c : Nat × Nat},
      c ∈ rowScan p i j row → c.1 = i ∧ j ≤ c.2
  | [], i, j, c, h => by simp [rowScan] at h
  | v :: rest, i, j, c, h => by
    simp only [rowScan, List.mem_append] at h
    rcases h with h | h
    · cases hp : p v <;> simp [hp] at h
      cases h
      exact ⟨rfl, Nat.le_refl j⟩
    · have := mem_rowScan h
      exact ⟨this.1, Nat.le_of_succ_le this.2⟩

lemma mem_gridScan {p : Nat → Bool} :
    ∀ {m : List (List Nat)} {i : Nat} {c : Nat × Nat},
      c ∈ gridScan p i m → i ≤ c.1
  | [], i, c, h => by simp [gridScan] at h
  | row :: rest, i, c, h => by
    simp only [gridScan, List.mem_append] at h
    rcases h with h | h
    · exact Nat.le_of_eq (mem_rowScan h).1.symm
    · exact Nat.le_of_succ_le (mem_gridScan h)

lemma nodup_rowScan (p : Nat → Bool) :
    ∀ (row : List Nat) (i j : Nat), (rowScan p i j row).Nodup
  | [], i, j => by simp [rowScan]
  | v :: rest, i, j => by
    have ih := nodup_rowScan p rest i (j + 1)
    cases hp : p v
    · simpa [rowScan, hp] using ih
    · simp only [rowScan, hp, if_pos, List.singleton_append, List.nodup_cons]
      refine ⟨fun hmem => ?_, ih⟩
      have := (mem_rowScan hmem).2
      omega

lemma nodup_gridScan (p : Nat → Bool) :
    ∀ (m : List (List Nat)) (i : Nat), (gridScan p i m).Nodup
  | [], i => by simp [gridScan]
  | row :: rest, i => by
    refine List.Nodup.append (nodup_rowScan p row i 0) (nodup_gridScan p rest (i + 1)) ?_
    intro c hc hc'
    have h1 := (mem_rowScan hc).1
    have h2 := mem_gridScan hc'
    omega

lemma sublist_rowScan (p : Nat → Bool) :
    ∀ (row : List Nat) (i j : Nat),
      (rowScan p i j row).Sublist (rowScan (fun _ => true) i j row)
  | [], i, j => by simp [rowScan]
  | v :: rest, i, j => by
    have ih := sublist_rowScan p rest i (j + 1)
    cases hp : p v
    · simp only [rowScan, hp, if_neg, Bool.false_eq_true, not_false_eq_true,
        List.nil_append, if_pos, List.singleton_append]
      exact ih.cons (i, j)
    · simp only [rowScan, hp, if_pos, List.singleton_append]
      exact ih.cons₂ (i, j)

lemma sublist_gridScan (p : Nat → Bool) :
    ∀ (m : List (List Nat)) (i : Nat),
      (gridScan p i m).Sublist (gridScan (fun _ => true) i m)
  | [], i => by simp [gridScan]
  | row :: rest, i =>
    List.Sublist.append (sublist_rowScan p row i 0) (sublist_gridScan p rest (i + 1))

lemma zeroCoords_eq_not (m : Mask) :
    zeroCoords m = gridScan (fun v => !(v != 0)) 0 m := by
  refine (gridScan_congr _ _ (fun v => ?_) m 0).symm
  simp [bne]

/-- C3: for every binary mask, the foreground coordinates (`torch.nonzero(mask)`)
and background coordinates (`torch.nonzero(mask == 0)`) partition the full
row-major coordinate space of the mask, each coordinate appearing exactly once
across the two lists, and both lists are in row-major order (sublists of the
row-major enumeration); in particular the mask `[[1,0],[0,1]]` yields
foreground `[(0,0),(1,1)]` and background `[(0,1),(1,0)]`. -/
theorem pixel_sets_partition_coordinate_space :
    (∀ (m : Mask) (c : Nat × Nat),
        (nonzeroCoords m).count c + (zeroCoords m).count c = (allCoords m).count c)
    ∧ (∀ m : Mask, (allCoords m).Nodup)
    ∧ (∀ m : Mask, (nonzeroCoords m).Sublist (allCoords m)
        ∧ (zeroCoords m).Sublist (allCoords m))
    ∧ nonzeroCoords [[1, 0], [0, 1]] = [(0, 0), (1, 1)]
    ∧ zeroCoords [[1, 0], [0, 1]] = [(0, 1), (1, 0)] := by
  refine ⟨?_, ?_, ?_, by decide, by decide⟩
  · intro m c
    rw [zeroCoords_eq_not]
    exact gridScan_count (fun v => v != 0) c m 0
  · intro m
    exact nodup_gridScan (fun _ => true) m 0
  · intro m
    exact ⟨sublist_gridScan _ m 0, sublist_gridScan _ m 0⟩

/-- `torch.cat([embedding_f1, embedding_f2], 2)` (train.py line 84):
concatenate two embedding tensors of shape `(D, W', H')` along their last
spatial axis ("horizontally stacked" pooling frames); on the spatial
grid-of-vectors representation this appends the two grids row by row. -/
def catWidth (f1 f2 : Emb) : Emb :=
  List.zipWith (fun r1 r2 => r1 ++ r2) f1 f2

/-- `torch.cat([mask1, mask2], 1)` (train.py line 95): concatenate two
annotation masks along the matching (last) spatial axis, row by row. -/
def catMasks (m1 m2 : Mask) : Mask :=
  List.zipWith (fun r1 r2 => r1 ++ r2) m1 m2

lemma get?_zipWith {α β γ : Type} (f : α → β → γ) :
    ∀ (l1 : List α) (l2 : List β) (n : Nat) (a : α) (b : β),
      l1.get? n = some a → l2.get? n = some b →
      (List.zipWith f l1 l2).get? n = some (f a b)
  | [], _, _, _, _, h1, _ => by simp at h1
  | _ :: _, [], _, _, _, _, h2 => by simp at h2
  | x :: l1, y :: l2, 0, a, b, h1, h2 => by
    simp at h1 h2
    simp [List.zipWith, h1, h2]
  | x :: l1, y :: l2, n + 1, a, b, h1, h2 => by
    simp only [List.get?] at h1 h2
    simpa [List.zipWith] using get?_zipWith f l1 l2 n a b h1 h2

/-- C4: the Pool Aggregator concatenates the two pooling-frame embedding
tensors along the spatial width axis — every spatial row of the combined
tensor is the concatenation of the corresponding rows, so the extent along
the concatenated axis is `W1' + W2'` while the other axes are unchanged —
and concatenates the two pooling-frame masks along the matching axis; the
1×2 pool masks `[1,0]` and `[0,1]` combine to `[1,0,0,1]` with foreground
pool coordinates `[(0,0),(0,3)]` and background `[(0,1),(0,2)]`. -/
theorem pool_aggregator_concatenates_along_width :
    (∀ (f1 f2 : Emb), f1.length = f2.length →
        (catWidth f1 f2).length = f1.length
        ∧ ∀ (x : Nat) (r1 r2 : List (List ℚ)),
            f1.get? x = some r1 → f2.get? x = some r2 →
            (catWidth f1 f2).get? x = some (r1 ++ r2)
            ∧ (r1 ++ r2).length = r1.length + r2.length)
    ∧ (∀ (m1 m2 : Mask) (x : Nat) (r1 r2 : List Nat),
        m1.get? x = some r1 → m2.get? x = some r2 →
        (catMasks m1 m2).get? x = some (r1 ++ r2))
    ∧ catMasks [[1, 0]] [[0, 1]] = [[1, 0, 0, 1]]
    ∧ nonzeroCoords (catMasks [[1, 0]] [[0, 1]]) = [(0, 0), (0, 3)]
    ∧ zeroCoords (catMasks [[1, 0]] [[0, 1]]) = [(0, 1), (0, 2)] := by
  refine ⟨?_, ?_, by decide, by decide, by decide⟩
  · intro f1 f2 h
    refine ⟨?_, ?_⟩
    · simp [catWidth, h]
    · intro x r1 r2 h1 h2
      exact ⟨get?_zipWith _ f1 f2 x r1 r2 h1 h2, List.length_append r1 r2⟩
  · intro m1 m2 x r1 r2 h1 h2
    exact get?_zipWith _ m1 m2 x r1 r2 h1 h2

/-- Witness for C4 at concrete one-row tensors and the 1×2 masks. -/
theorem pool_aggregator_concatenates_along_width_witness :
    ((catWidth [[[(1 : ℚ)]]] [[[(2 : ℚ)]]]).get? 0 = some ([[(1 : ℚ)]] ++ [[(2 : ℚ)]])
      ∧ ([[(1 : ℚ)]] ++ [[(2 : ℚ)]]).length = 1 + 1)
    ∧ (catMasks [[1, 0]] [[0, 1]]).get? 0 = some ([1, 0] ++ [0, 1]) :=
  ⟨(pool_aggregator_concatenates_along_width.1 [[[(1 : ℚ)]]] [[[(2 : ℚ)]]] rfl).2
      0 [[(1 : ℚ)]] [[(2 : ℚ)]] rfl rfl,
    pool_aggregator_concatenates_along_width.2.1 [[1, 0]] [[0, 1]] 0 [1, 0] [0, 1] rfl rfl⟩

/-- `emb[:, x, y]`: read the D-vector at spatial position `(x, y)` of an
embedding tensor; fails (as tensor indexing does) when either index is out
of range. -/
def lookupVec (emb : Emb) (c : Nat × Nat) : Option (List ℚ) :=
  match emb.get? c.1 with
  | none => none
  | some row => row.get? c.2

/-- Stack the embedding vectors at the listed coordinates, in order;
`none` as soon as one coordinate is out of range. -/
def gatherList (emb : Emb) : List (Nat × Nat) → Option (List (List ℚ))
  | [] => some []
  | c :: rest =>
    match lookupVec emb c, gatherList emb rest with
    | some v, some vs => some (v :: vs)
    | _, _ => none

/-- `torch.cat([emb[:, x, y].unsqueeze(0) for x, y in coords])` (train.py
lines 99, 100, 106, 107): the gathered embedding batch.  `torch.cat`
raises on an empty list of tensors and indexing raises out of range, so
the result is an `Option`. -/
def gatherEmb (emb : Emb) (coords : List (Nat × Nat)) : Option (List (List ℚ)) :=
  if coords.isEmpty then none else gatherList emb coords

/-- Squared Euclidean distance between two embedding vectors. -/
def sqDist (u v : List ℚ) : ℚ :=
  (List.zipWith (fun a b => (a - b) ^ 2) u v).sum

/-- Distance from an anchor vector to its closest vector in a pool. -/
def minDistTo (a : List ℚ) : List (List ℚ) → ℚ
  | [] => 0
  | p :: ps => List.foldl (fun m q => min m (sqDist a q)) (sqDist a p) ps

/-- Modelled from the spec: `src/bfvos/model/loss.py` (class
`MinTripletLoss`, instantiated at train.py line 59) is not among the
sources.  Per spec §4.3, for each anchor vector the hinge
`max(0, d(a, closest positive) - d(a, closest negative) + alpha)` is
accumulated by summation, with nearest-negative as the symmetric
counterpart of nearest-positive; if the anchor batch, the positive pool
or the negative pool is empty the call returns zero rather than failing.
The distance is modelled as squared Euclidean distance over `ℚ`. -/
def minTripletLoss (alpha : ℚ) (anchors positivePool negativePool : List (List ℚ)) : ℚ :=
  if anchors.isEmpty || positivePool.isEmpty || negativePool.isEmpty then 0
  else
    (anchors.map
      (fun a => max 0 (minDistTo a positivePool - minDistTo a negativePool + alpha))).sum

/-- One training sample as consumed by `train` (train.py lines 77–97): the
three binary annotation masks (anchor frame and the two pooling frames)
and the three embedding tensors the network produced for the triplet. -/
structure Sample where
  maskA : Mask
  maskF1 : Mask
  maskF2 : Mask
  embA : Emb
  embF1 : Emb
  embF2 : Emb

/-- The loss construction of one training step (train.py lines 84–114):
concatenate the pooling embeddings along the width, extract the anchor and
pool coordinate sets, gather the four embedding batches in source order,
call the loss engine twice with the positive/negative pools swapped, and
sum the two losses.  Returns `(fg_loss, bg_loss, final_loss)`, or `none`
when one of the gathers fails. -/
def trainStep (alpha : ℚ) (s : Sample) : Option (ℚ × ℚ × ℚ) := do
  let embeddingPoolPoints := catWidth s.embF1 s.embF2
  let fgAnchorIndices := nonzeroCoords s.maskA
  let bgAnchorIndices := zeroCoords s.maskA
  let allPoolPoints := catMasks s.maskF1 s.maskF2
  let fgPoolIndices := nonzeroCoords allPoolPoints
  let bgPoolIndices := zeroCoords allPoolPoints
  let fgEmbeddingA ← gatherEmb s.embA fgAnchorIndices
  let bgEmbeddingA ← gatherEmb s.embA bgAnchorIndices
  let fgPositivePool ← gatherEmb embeddingPoolPoints fgPoolIndices
  let bgPositivePool ← gatherEmb embeddingPoolPoints bgPoolIndices
  let fgNegativePool := bgPositivePool
  let bgNegativePool := fgPositivePool
  let fgLoss := minTripletLoss alpha fgEmbeddingA fgPositivePool fgNegativePool
  let bgLoss := minTripletLoss alpha bgEmbeddingA bgPositivePool bgNegativePool
  pure (fgLoss, bgLoss, fgLoss + bgLoss)

/-- C5: whenever the four gathers of a training step succeed, the loss
engine is applied exactly twice — the foreground call on (foreground
anchors, positive = foreground pool gather, negative = background pool
gather) and the background call on the very same two gathered pool tensors
with the positive/negative roles exchanged — and the step's final loss is
`fg_loss + bg_loss`. -/
theorem loss_engine_called_twice_with_swapped_pools
    (alpha : ℚ) (s : Sample) (fgE bgE fgP bgP : List (List ℚ))
    (h1 : gatherEmb s.embA (nonzeroCoords s.maskA) = some fgE)
    (h2 : gatherEmb s.embA (zeroCoords s.maskA) = some bgE)
    (h3 : gatherEmb (catWidth s.embF1 s.embF2)
        (nonzeroCoords (catMasks s.maskF1 s.maskF2)) = some fgP)
    (h4 : gatherEmb (catWidth s.embF1 s.embF2)
        (zeroCoords (catMasks s.maskF1 s.maskF2)) = some bgP) :
    trainStep alpha s =
      some (minTripletLoss alpha fgE fgP bgP,
            minTripletLoss alpha bgE bgP fgP,
            minTripletLoss alpha fgE fgP bgP + minTripletLoss alpha bgE bgP fgP) := by
  simp [trainStep, h1, h2, h3, h4]

/-- Concrete sample exercising the swapped-pool step: anchor mask `[[1,0]]`,
pool masks `[[1]]` and `[[0]]`, one-dimensional embeddings. -/
def swapSample : Sample :=
  { maskA := [[1, 0]], maskF1 := [[1]], maskF2 := [[0]],
    embA := [[[1], [2]]], embF1 := [[[3]]], embF2 := [[[4]]] }

/-- Witness for C5. -/
theorem loss_engine_called_twice_with_swapped_pools_witness :
    trainStep 1 swapSample =
      some (minTripletLoss 1 [[1]] [[3]] [[4]],
            minTripletLoss 1 [[2]] [[4]] [[3]],
            minTripletLoss 1 [[1]] [[3]] [[4]] + minTripletLoss 1 [[2]] [[4]] [[3]]) :=
  loss_engine_called_twice_with_swapped_pools 1 swapSample
    [[1]] [[2]] [[3]] [[4]] (by decide) (by decide) (by decide) (by decide)

/-- C7: the hinge-based triplet loss is nonnegative for every anchor batch,
positive pool, negative pool and margin `alpha ≥ 0`. -/
theorem triplet_loss_nonneg (alpha : ℚ) (h : 0 ≤ alpha)
    (anchors positivePool negativePool : List (List ℚ)) :
    0 ≤ minTripletLoss alpha anchors positivePool negativePool := by
  unfold minTripletLoss
  split
  · exact le_refl 0
  · refine List.sum_nonneg ?_
    intro x hx
    obtain ⟨a, _, rfl⟩ := List.mem_map.mp hx
    exact le_max_left 0 _

/-- Witness for C7 at a concrete batch. -/
theorem triplet_loss_nonneg_witness :
    (0 : ℚ) ≤ 1 ∧ (0 : ℚ) ≤ minTripletLoss 1 [[0]] [[1]] [[2]] :=
  ⟨by norm_num, triplet_loss_nonneg 1 (by norm_num) [[0]] [[1]] [[2]]⟩

lemma bind_const_none {α β : Type} (x : Option α) :
    (x >>= fun _ => (none : Option β)) = none := by
  cases x <;> rfl

/-- All-foreground 1×1 anchor mask: its background anchor coordinate set is
empty, while both pool sets are inhabited. -/
def degenerateSample : Sample :=
  { maskA := [[1]], maskF1 := [[1]], maskF2 := [[0]],
    embA := [[[1]]], embF1 := [[[1]]], embF2 := [[[1]]] }

/-- C1 counterexample: at the all-foreground anchor mask `[[1]]` the
background anchor coordinate set is empty, and the training step fails
(`torch.cat` over an empty list of gathered tensors raises) instead of
completing with zero loss as the claim states. -/
theorem empty_pool_step_fails_counterexample :
    zeroCoords degenerateSample.maskA = []
    ∧ trainStep 1 degenerateSample = none := by
  constructor
  · decide
  · rfl

/-- C1 (amended): when the anchor's foreground set, the anchor's background
set, the combined foreground pool set, or the combined background pool set
is empty — as happens for an all-foreground or all-background mask — the
training step does not complete: the empty gather (`torch.cat` over an
empty list) fails before the loss engine is reached.  The spec-modelled
loss engine itself does return zero on empty inputs. -/
theorem empty_coordinate_set_aborts_step :
    (∀ (alpha : ℚ) (s : Sample),
        (nonzeroCoords s.maskA = [] ∨ zeroCoords s.maskA = []
          ∨ nonzeroCoords (catMasks s.maskF1 s.maskF2) = []
          ∨ zeroCoords (catMasks s.maskF1 s.maskF2) = []) →
        trainStep alpha s = none)
    ∧ (∀ (alpha : ℚ) (anchors positivePool negativePool : List (List ℚ)),
        (anchors = [] ∨ positivePool = [] ∨ negativePool = []) →
        minTripletLoss alpha anchors positivePool negativePool = 0) := by
  constructor
  · intro alpha s h
    rcases h with h | h | h | h <;>
      simp [trainStep, h, gatherEmb, bind_const_none]
  · intro alpha anchors positivePool negativePool h
    rcases h with h | h | h <;> simp [minTripletLoss, h]

/-- Witness for C1 (amended). -/
theorem empty_coordinate_set_aborts_step_witness :
    trainStep 1 degenerateSample = none
    ∧ minTripletLoss 1 [] [[1]] [[2]] = 0 :=
  ⟨empty_coordinate_set_aborts_step.1 1 degenerateSample (Or.inr (Or.inl (by decide))),
    empty_coordinate_set_aborts_step.2 1 [] [[1]] [[2]] (Or.inl rfl)⟩

/-- Stated from the spec for comparison (claim C2): the spec's description
of dividing the anchor coordinates by the network's spatial stride before
gathering. -/
def specScaledCoords (stride : Nat) (coords : List (Nat × Nat)) : List (Nat × Nat) :=
  coords.map (fun c => (c.1 / stride, c.2 / stride))

/-- An 11×11 anchor mask whose only foreground pixel sits at `(10, 10)`. -/
def oversizedMask : Mask :=
  List.replicate 10 (List.replicate 11 0) ++ [List.replicate 10 0 ++ [1]]

/-- A 6×6 spatial embedding grid of one-dimensional zero vectors, the shape
a 50×50 frame yields after the 8× network stride. -/
def smallEmb : Emb :=
  List.replicate 6 (List.replicate 6 [(0 : ℚ)])

/-- C2 counterexample: the coordinates the step gathers with are the raw
nonzero indices of the mask, not the stride-divided ones, and on a 6×6
embedding the raw coordinate `(10, 10)` is out of bounds: the gather fails,
while stride division would have kept it in bounds. -/
theorem anchor_coords_not_scaled_counterexample :
    nonzeroCoords oversizedMask = [(10, 10)]
    ∧ specScaledCoords 8 (nonzeroCoords oversizedMask) = [(1, 1)]
    ∧ nonzeroCoords oversizedMask ≠ specScaledCoords 8 (nonzeroCoords oversizedMask)
    ∧ gatherEmb smallEmb (nonzeroCoords oversizedMask) = none
    ∧ gatherEmb smallEmb (specScaledCoords 8 (nonzeroCoords oversizedMask))
        = some [[0]] := by
  decide

/-- Whether a raw coordinate lies within the spatial bounds of an embedding
grid. -/
def inBoundsB (emb : Emb) (c : Nat × Nat) : Bool :=
  match emb.get? c.1 with
  | some row => decide (c.2 < row.length)
  | none => false

lemma lookupVec_isSome_of_inBounds (emb : Emb) (c : Nat × Nat)
    (h : inBoundsB emb c = true) : ∃ v, lookupVec emb c = some v := by
  unfold inBoundsB at h
  unfold lookupVec
  cases hrow : emb.get? c.1 with
  | none => rw [hrow] at h; simp at h
  | some row =>
    rw [hrow] at h
    have hlt : c.2 < row.length := of_decide_eq_true h
    have hne : row.get? c.2 ≠ none := fun hcon => by
      rw [List.get?_eq_none] at hcon
      omega
    obtain ⟨v, hv⟩ := Option.ne_none_iff_exists'.mp hne
    exact ⟨v, hv⟩

lemma lookupVec_eq_none_of_oob (emb : Emb) (c : Nat × Nat)
    (h : inBoundsB emb c = false) : lookupVec emb c = none := by
  unfold inBoundsB at h
  unfold lookupVec
  cases hrow : emb.get? c.1 with
  | none => rfl
  | some row =>
    rw [hrow] at h
    have hge : ¬ (c.2 < row.length) := of_decide_eq_false h
    rw [List.get?_eq_none]
    omega

lemma gatherList_isSome (emb : Emb) :
    ∀ coords : List (Nat × Nat), (∀ c ∈ coords, inBoundsB emb c = true) →
      ∃ vs, gatherList emb coords = some vs
  | [], _ => ⟨[], rfl⟩
  | c :: rest, h => by
    obtain ⟨v, hv⟩ := lookupVec_isSome_of_inBounds emb c (h c (by simp))
    obtain ⟨vs, hvs⟩ := gatherList_isSome emb rest (fun d hd => h d (by simp [hd]))
    exact ⟨v :: vs, by simp [gatherList, hv, hvs]⟩

lemma gatherList_none_of_oob (emb : Emb) :
    ∀ (coords : List (Nat × Nat)) (c : Nat × Nat), c ∈ coords →
      inBoundsB emb c = false → gatherList emb coords = none
  | [], c, hc, _ => absurd hc (List.not_mem_nil c)
  | d :: rest, c, hc, hb => by
    rcases List.mem_cons.mp hc with h | h
    · subst h
      have hl := lookupVec_eq_none_of_oob emb c hb
      simp [gatherList, hl]
    · have hrest := gatherList_none_of_oob emb rest c h hb
      cases hl : lookupVec emb d <;> simp [gatherList, hl, hrest]

/-- C2 (amended): the training step applies no stride scaling — the anchor
coordinates used for gathering are the raw nonzero indices of the anchor
annotation mask.  A gathered coordinate therefore lies within the embedding
tensor's bounds only if the raw index already does (the annotation must
already be at embedding resolution, as the code's comment assumes): the
gather succeeds when every raw coordinate is in bounds, and fails whenever
some raw coordinate is out of bounds. -/
theorem anchor_gather_uses_raw_mask_coordinates :
    (∀ (emb : Emb) (m : Mask),
        (∀ c ∈ nonzeroCoords m, inBoundsB emb c = true) →
        nonzeroCoords m ≠ [] →
        (gatherEmb emb (nonzeroCoords m)).isSome = true)
    ∧ (∀ (emb : Emb) (m : Mask) (c : Nat × Nat),
        c ∈ nonzeroCoords m → inBoundsB emb c = false →
        gatherEmb emb (nonzeroCoords m) = none) := by
  constructor
  · intro emb m hin hne
    obtain ⟨vs, hvs⟩ := gatherList_isSome emb (nonzeroCoords m) hin
    have hz : (nonzeroCoords m).isEmpty = false := by
      cases hnz : nonzeroCoords m with
      | nil => exact absurd hnz hne
      | cons a l => rfl
    simp [gatherEmb, hz, hvs]
  · intro emb m c hc hb
    have h := gatherList_none_of_oob emb (nonzeroCoords m) c hc hb
    by_cases hz : (nonzeroCoords m).isEmpty <;> simp [gatherEmb, hz, h]

/-- Witness for C2 (amended). -/
theorem anchor_gather_uses_raw_mask_coordinates_witness :
    (gatherEmb [[[(5 : ℚ)]]] (nonzeroCoords [[1]])).isSome = true
    ∧ gatherEmb smallEmb (nonzeroCoords oversizedMask) = none :=
  ⟨anchor_gather_uses_raw_mask_coordinates.1 [[[(5 : ℚ)]]] [[1]] (by decide) (by decide),
    anchor_gather_uses_raw_mask_coordinates.2 smallEmb oversizedMask (10, 10)
      (by decide) (by decide)⟩

/-- train.py line 23. -/
def log_interval : Nat := 10

/-- train.py line 24. -/
def checkpoint_interval : Nat := 10

/-- train.py line 44. -/
def num_epochs : Nat := 1

/-- train.py line 27: the device constant is hardcoded to "cpu". -/
def device : String := "cpu"

/-- The checkpoint filename written at train.py line 134:
`ckpt_epoch_{epoch + 1}_batch_id_{idx + 1}.pth` for 0-based loop
variables `epoch` and `idx`. -/
def ckptFilename (epoch idx : Nat) : String :=
  "ckpt_epoch_" ++ toString (epoch + 1) ++ "_batch_id_" ++ toString (idx + 1) ++ ".pth"

/-- The final model filename written at train.py line 68:
`epoch_{num_epochs}_{timestamp}.model`. -/
def finalModelFilename (numEpochs : Nat) (timestamp : String) : String :=
  "epoch_" ++ toString numEpochs ++ "_" ++ timestamp ++ ".model"

/-- The checkpoint files one call of `train` persists (train.py lines
132–137): one file after every batch whose 1-based index is a multiple of
the checkpoint interval. -/
def epochCheckpoints (epoch nBatches interval : Nat) : List String :=
  (List.range nBatches).filterMap
    (fun idx => if (idx + 1) % interval == 0 then some (ckptFilename epoch idx) else none)

/-- Every file `main` persists (train.py lines 62–70): the per-epoch
checkpoints followed by the final model artifact. -/
def runFiles (numEpochs nBatches interval : Nat) (timestamp : String) : List String :=
  ((List.range numEpochs).map (fun e => epochCheckpoints e nBatches interval)).flatten
    ++ [finalModelFilename numEpochs timestamp]

/-- C6: a checkpoint named `ckpt_epoch_<epoch>_batch_id_<batch>.pth` is
written after every `checkpoint_interval` batches, a final
`epoch_<num_epochs>_<timestamp>.model` is written after all epochs, and a
run over 25 batches with interval 10 persists exactly the checkpoints of
batches 10 and 20 plus the final artifact — three files. -/
theorem checkpoint_cadence :
    (∀ (e n interval idx : Nat), idx < n → (idx + 1) % interval = 0 →
        ckptFilename e idx ∈ epochCheckpoints e n interval)
    ∧ (∀ ts : String,
        runFiles num_epochs 25 checkpoint_interval ts
          = ["ckpt_epoch_1_batch_id_10.pth", "ckpt_epoch_1_batch_id_20.pth",
             finalModelFilename num_epochs ts]
        ∧ (runFiles num_epochs 25 checkpoint_interval ts).length = 3) := by
  constructor
  · intro e n interval idx h1 h2
    simp only [epochCheckpoints, List.mem_filterMap]
    exact ⟨idx, List.mem_range.mpr h1, by simp [h2]⟩
  · intro ts
    have h : epochCheckpoints 0 25 10
        = ["ckpt_epoch_1_batch_id_10.pth", "ckpt_epoch_1_batch_id_20.pth"] := by rfl
    constructor
    · simp [runFiles, num_epochs, checkpoint_interval, List.range_succ, h]
    · simp [runFiles, num_epochs, checkpoint_interval, List.range_succ, h]

/-- Witness for C6 at epoch 0, batch index 9, 25 batches, interval 10. -/
theorem checkpoint_cadence_witness :
    ckptFilename 0 9 ∈ epochCheckpoints 0 25 10
    ∧ (runFiles num_epochs 25 checkpoint_interval "1700000000.0").length = 3 :=
  ⟨checkpoint_cadence.1 0 25 10 9 (by decide) (by decide),
    (checkpoint_cadence.2 "1700000000.0").2⟩

/-- The state of the model object as the checkpoint block sees it: its
parameter values, its training/evaluation flag, and its device. -/
structure ModelState where
  params : List ℚ
  trainingMode : Bool
  dev : String

/-- `model.eval()`: clears the training flag; parameters untouched. -/
def evalMode (m : ModelState) : ModelState := { m with trainingMode := false }

/-- `model.cpu()`: moves the module to the CPU; parameters untouched. -/
def cpuMove (m : ModelState) : ModelState := { m with dev := "cpu" }

/-- `model.state_dict()` as passed to `torch.save`: a pure read of the
parameter state. -/
def stateDict (m : ModelState) : List ℚ := m.params

/-- `model.to(device)`: moves the module to the given device. -/
def toDevice (d : String) (m : ModelState) : ModelState := { m with dev := d }

/-- `model.train()`: sets the training flag; parameters untouched. -/
def trainFlag (m : ModelState) : ModelState := { m with trainingMode := true }

/-- The mid-training checkpoint block (train.py lines 133–138):
`model.eval().cpu()`, serialize `model.state_dict()`, then
`model.to(device).train()`.  Returns the post-block model state and the
serialized parameters. -/
def checkpointBlock (m : ModelState) : ModelState × List ℚ :=
  let m1 := cpuMove (evalMode m)
  let saved := stateDict m1
  let m2 := trainFlag (toDevice device m1)
  (m2, saved)

/-- C8: the checkpoint block leaves the parameter values unchanged — the
state after the block has exactly the parameters of the state before it —
while serializing those same parameters and ending back in training mode
on the configured device. -/
theorem checkpoint_block_preserves_params (m : ModelState) :
    (checkpointBlock m).1.params = m.params
    ∧ (checkpointBlock m).1.trainingMode = true
    ∧ (checkpointBlock m).1.dev = device
    ∧ (checkpointBlock m).2 = m.params :=
  ⟨rfl, rfl, rfl, rfl⟩

/-- The precision of a tensor scalar type. -/
inductive ScalarType where
  | float32
  | float64
deriving DecidableEq

/-- A torch tensor type: its device class and its scalar precision. -/
structure TensorTypeSpec where
  onCuda : Bool
  scalar : ScalarType

/-- `torch.cuda.DoubleTensor`. -/
def cudaDoubleTensor : TensorTypeSpec := ⟨true, ScalarType.float64⟩

/-- `torch.DoubleTensor`. -/
def doubleTensor : TensorTypeSpec := ⟨false, ScalarType.float64⟩

/-- config.py lines 3–8: the module-level default tensor type, chosen by
`torch.cuda.is_available()` at import time and installed globally by
train.py line 29. -/
def DEFAULT_TENSOR_TYPE (cudaAvailable : Bool) : TensorTypeSpec :=
  if cudaAvailable then cudaDoubleTensor else doubleTensor

/-- config.py lines 3–8: the module-level default dtype (`torch.cuda.double`
on the CUDA branch, `torch.double` otherwise — both denote 64-bit floating
point), installed globally by train.py line 30. -/
def DEFAULT_DTYPE (cudaAvailable : Bool) : ScalarType :=
  if cudaAvailable then ScalarType.float64 else ScalarType.float64

/-- C9: on both branches of the CUDA-availability test the default tensor
type and default dtype installed at process start are double precision
(float64) — the CUDA double type when CUDA is available and the CPU double
type otherwise — and this choice is independent of the device constant,
which is hardcoded to "cpu". -/
theorem default_tensor_type_is_float64 :
    ∀ b : Bool,
      (DEFAULT_TENSOR_TYPE b).scalar = ScalarType.float64
      ∧ DEFAULT_DTYPE b = ScalarType.float64
      ∧ (DEFAULT_TENSOR_TYPE b).onCuda = b
      ∧ device = "cpu" := by
  intro b
  cases b <;> exact ⟨rfl, rfl, rfl, rfl⟩

/-- Sum of the foreground losses of a batch prefix. -/
def sumFg (l : List (ℚ × ℚ)) : ℚ := (l.map Prod.fst).sum

/-- Sum of the background losses of a batch prefix. -/
def sumBg (l : List (ℚ × ℚ)) : ℚ := (l.map Prod.snd).sum

/-- The accumulation-and-logging skeleton of `train` (train.py lines 75–130):
fold over the epoch's per-batch `(fg_loss, bg_loss)` values with the two
running accumulators, and at every batch whose 1-based index is a multiple
of the log interval emit
`(idx + 1, agg_fg/(idx+1), agg_bg/(idx+1), (agg_fg+agg_bg)/(idx+1))`. -/
def epochLogsAux (interval idx : Nat) (aggFg aggBg : ℚ) :
    List (ℚ × ℚ) → List (Nat × ℚ × ℚ × ℚ)
  | [] => []
  | (fg, bg) :: rest =>
    (if (idx + 1) % interval == 0
      then [(idx + 1, (aggFg + fg) / ((idx : ℚ) + 1), (aggBg + bg) / ((idx : ℚ) + 1),
              ((aggFg + fg) + (aggBg + bg)) / ((idx : ℚ) + 1))]
      else [])
      ++ epochLogsAux interval (idx + 1) (aggFg + fg) (aggBg + bg) rest

/-- One call of `train` (one epoch): both accumulators start at zero
(train.py lines 75–76). -/
def epochLogs (interval : Nat) (losses : List (ℚ × ℚ)) : List (Nat × ℚ × ℚ × ℚ) :=
  epochLogsAux interval 0 0 0 losses

/-- The epoch loop of `main` (train.py lines 62–64): each epoch invokes
`train` afresh, so each epoch's accumulators are new local zeros. -/
def trainRunLogs (epochLosses : List (List (ℚ × ℚ))) : List (List (Nat × ℚ × ℚ × ℚ)) :=
  epochLosses.map (epochLogs log_interval)

lemma epochLogsAux_mem (interval : Nat) :
    ∀ (losses : List (ℚ × ℚ)) (idx : Nat) (f g : ℚ) (x : Nat × ℚ × ℚ × ℚ),
      x ∈ epochLogsAux interval idx f g losses →
      ∃ j, j < losses.length ∧ x.1 = idx + j + 1 ∧ (idx + j + 1) % interval = 0
        ∧ x.2.1 = (f + sumFg (losses.take (j + 1))) / ((idx : ℚ) + j + 1)
        ∧ x.2.2.1 = (g + sumBg (losses.take (j + 1))) / ((idx : ℚ) + j + 1)
        ∧ x.2.2.2 = ((f + sumFg (losses.take (j + 1))) + (g + sumBg (losses.take (j + 1))))
            / ((idx : ℚ) + j + 1)
  | [], idx, f, g, x => by intro h; simp [epochLogsAux] at h
  | (a, b) :: rest, idx, f, g, x => by
    intro h
    simp only [epochLogsAux, List.mem_append] at h
    rcases h with h | h
    · rcases hcond : (idx + 1) % interval == 0 with _ | _
      · rw [hcond] at h; simp at h
      · rw [hcond] at h
        simp only [if_pos, List.mem_singleton] at h
        subst h
        refine ⟨0, by simp, by simp, by simpa using hcond, ?_, ?_, ?_⟩
          <;> simp [sumFg, sumBg]
    · obtain ⟨j, hj, h1, h2, h3, h4, h5⟩ :=
        epochLogsAux_mem interval rest (idx + 1) (f + a) (g + b) x h
      refine ⟨j + 1, by simpa using hj, by omega, by
          have : idx + (j + 1) + 1 = idx + 1 + j + 1 := by omega
          rw [this]; exact h2, ?_, ?_, ?_⟩
      · rw [h3]
        have hs : sumFg (((a, b) :: rest).take (j + 1 + 1)) = a + sumFg (rest.take (j + 1)) := by
          simp [sumFg]
        rw [hs]
        push_cast
        ring
      · rw [h4]
        have hs : sumBg (((a, b) :: rest).take (j + 1 + 1)) = b + sumBg (rest.take (j + 1)) := by
          simp [sumBg]
        rw [hs]
        push_cast
        ring
      · rw [h5]
        have hsf : sumFg (((a, b) :: rest).take (j + 1 + 1)) = a + sumFg (rest.take (j + 1)) := by
          simp [sumFg]
        have hsb : sumBg (((a, b) :: rest).take (j + 1 + 1)) = b + sumBg (rest.take (j + 1)) := by
          simp [sumBg]
        rw [hsf, hsb]
        push_cast
        ring

/-- C10: each epoch of the run logs from accumulators that start at zero —
every per-epoch log list is `epochLogs` of that epoch's own batch losses —
and every logged entry at 1-based batch index `j + 1` divides the losses
accumulated over exactly the first `j + 1` batches of the current epoch by
`j + 1`, never by a count spanning several epochs. -/
theorem loss_accumulators_reset_per_epoch :
    (∀ (epochLosses : List (List (ℚ × ℚ))) (logs : List (Nat × ℚ × ℚ × ℚ)),
        logs ∈ trainRunLogs epochLosses →
        ∃ el, el ∈ epochLosses ∧ logs = epochLogs log_interval el)
    ∧ (∀ (losses : List (ℚ × ℚ)) (x : Nat × ℚ × ℚ × ℚ),
        x ∈ epochLogs log_interval losses →
        ∃ j, j < losses.length ∧ x.1 = j + 1 ∧ (j + 1) % log_interval = 0
          ∧ x.2.1 = sumFg (losses.take (j + 1)) / ((j : ℚ) + 1)
          ∧ x.2.2.1 = sumBg (losses.take (j + 1)) / ((j : ℚ) + 1)
          ∧ x.2.2.2 = (sumFg (losses.take (j + 1)) + sumBg (losses.take (j + 1)))
              / ((j : ℚ) + 1)) := by
  constructor
  · intro epochLosses logs h
    obtain ⟨el, hel, heq⟩ := List.mem_map.mp h
    exact ⟨el, hel, heq.symm⟩
  · intro losses x h
    obtain ⟨j, hj, h1, h2, h3, h4, h5⟩ :=
      epochLogsAux_mem log_interval losses 0 0 0 x h
    refine ⟨j, hj, by omega, by simpa using h2, ?_, ?_, ?_⟩
    · rw [h3]; push_cast; ring_nf
    · rw [h4]; push_cast; ring_nf
    · rw [h5]; push_cast; ring_nf

/-- Ten batches of constant losses `(1, 2)`, enough to trigger one log. -/
def tenBatches : List (ℚ × ℚ) := List.replicate 10 ((1 : ℚ), (2 : ℚ))

/-- Witness for C10 at a ten-batch epoch: the entry logged at batch 10
averages exactly that epoch's ten losses. -/
theorem loss_accumulators_reset_per_epoch_witness :
    (10, (1 : ℚ), (2 : ℚ), (3 : ℚ)) ∈ epochLogs log_interval tenBatches
    ∧ ∃ j, j < tenBatches.length ∧ (10, (1 : ℚ), (2 : ℚ), (3 : ℚ)).1 = j + 1
        ∧ (j + 1) % log_interval = 0
        ∧ (10, (1 : ℚ), (2 : ℚ), (3 : ℚ)).2.1 = sumFg (tenBatches.take (j + 1)) / ((j : ℚ) + 1)
        ∧ (10, (1 : ℚ), (2 : ℚ), (3 : ℚ)).2.2.1 = sumBg (tenBatches.take (j + 1)) / ((j : ℚ) + 1)
        ∧ (10, (1 : ℚ), (2 : ℚ), (3 : ℚ)).2.2.2
            = (sumFg (tenBatches.take (j + 1)) + sumBg (tenBatches.take (j + 1)))
                / ((j : ℚ) + 1) :=
  have hmem : (10, (1 : ℚ), (2 : ℚ), (3 : ℚ)) ∈ epochLogs log_interval tenBatches := by
    norm_num [epochLogs, epochLogsAux, tenBatches, log_interval, List.replicate]
  ⟨hmem, loss_accumulators_reset_per_epoch.2 tenBatches (10, (1 : ℚ), (2 : ℚ), (3 : ℚ)) hmem⟩
